import Mathlib

/-!
# Verification of the partitioned monotonic sequence allocator
# (neufeld-backend, `src/routes/reklamationen.js` and variants)

This file gives a shallow embedding of the `lfd_nr` (running number)
allocation core of the backend:

* `allocateLfdNumbers` — the allocator of the mounted route file
  `src/routes/reklamationen.js` (V1.1.0, the file `server.js` requires):
  validates `filiale`/`jahr`/`count`, ensures a counter row, then advances
  the row's `last_value` by `count` under a row lock and returns the block
  `(last_value + 1, last_value + count)`.
* `allocateLfdNrBlock` — the variant allocator of
  `src/routes/reklamationen - Kopie.js` (V1.1.2+), which additionally reads
  `MAX(lfd_nr)` over persisted positions of the same (filiale, jahr) and
  takes `base = max(current_value, observed MAX)` before advancing.
* A small transition system `Sys` for the persisted state touched by the
  POST (create), PUT (edit) and DELETE routes of the mounted file, with the
  transactional commit-or-rollback semantics of the route handlers.

Modelling conventions:

* The `lfd_nr_counter` table is modelled as a total map `CounterMap`;
  an absent row reads as `0`, which is exactly the visible behaviour after
  the `INSERT ... VALUES (.., 0) ON CONFLICT DO NOTHING` ensure step that
  every allocator runs before reading.
* JavaScript `Number` values that the code immediately checks with
  `Number.isInteger` / `Number.isFinite` are modelled as `Int`;
  a position's optional `lfd_nr` payload field is an `Option Int`
  (`none` covers `undefined`, `null` and non-numeric payloads, all of
  which the code lumps together via `Number.isFinite`).
* `new Date().getFullYear()` (wall-clock year) is an effect; it enters the
  model as an explicit `today` argument of each operation.
* Thrown errors abort the enclosing transaction (`ROLLBACK` in the catch
  block); an operation therefore returns `Except String Sys` and the
  committed state of a failed operation is the unchanged pre-state.
* Each persisted item additionally records the counter key (filiale, jahr)
  from which its number was drawn (`keyF`, `keyJ`).  The database keeps
  this association implicitly (through the parent row); the invariant
  claims quantify over it, so the model makes it explicit.
-/

/-- A counter key: (filiale, jahr), the two scoping dimensions of
`lfd_nr_counter`. -/
abbrev CounterKey := String × Int

/-- The `lfd_nr_counter` table as a total map; absent rows read as `0`
(the value the ensure-insert would create them with). -/
abbrev CounterMap := CounterKey → Int

/-- `filiale.trim() === ''` of the JS validation: every character is
whitespace (this also covers the empty string, i.e. the falsy check
`!filiale`). -/
def trimEmpty (s : String) : Bool := s.data.all (·.isWhitespace)

/-- The counter-row UPDATE: set the row of (filiale, jahr) to `v`, leave
every other row unchanged. -/
def bumpCounter (counter : CounterMap) (filiale : String) (jahr v : Int) :
    CounterMap :=
  fun k => if k = (filiale, jahr) then v else counter k

/-- Lines 61-70 of `src/routes/reklamationen.js`: the defensive check of the
rows returned by the locked counter update.  An empty row set means the
update affected zero rows; a delta different from `count` means the row was
mutated outside this path.  Both abort with the exact thrown messages. -/
def checkAllocRows (rows : List (Int × Int)) (count : Int) :
    Except String (Int × Int) :=
  match rows with
  | [] => .error "LFD_NR: Counter-Update fehlgeschlagen"
  | (oldLast, newLast) :: _ =>
    if newLast - oldLast ≠ count then
      .error "LFD_NR: Counter-Werte inkonsistent"
    else
      .ok (oldLast, newLast)

/-- `allocateLfdNumbers` of `src/routes/reklamationen.js` (lines 18-73), the
allocator of the mounted route file.  Returns the updated counter map and
`some (start, end)` of the reserved block, or `none` as the sentinel
`{ start: null, end: null }` for a non-positive count.  The `FOR UPDATE`
row lock makes the read-and-advance atomic per key; the sequential model
below is its behaviour under that mutual exclusion. -/
def allocateLfdNumbers (counter : CounterMap) (filiale : String)
    (jahr count : Int) : Except String (CounterMap × Option (Int × Int)) :=
  if trimEmpty filiale then .error "LFD_NR: filiale fehlt/ungültig"
  else if jahr < 2000 ∨ 3000 < jahr then .error "LFD_NR: jahr fehlt/ungültig"
  else if count ≤ 0 then .ok (counter, none)
  else
    let oldLast := counter (filiale, jahr)
    let newLast := oldLast + count
    match checkAllocRows [(oldLast, newLast)] count with
    | .error e => .error e
    | .ok (o, n) => .ok (bumpCounter counter filiale jahr newLast, some (o + 1, n))

/-- A row of `reklamationen` as far as numbering is concerned: id, filiale,
and the calendar year of its `datum` (`none` when `datum` is NULL;
`EXTRACT(YEAR FROM NULL)` compares as unknown in the SQL of the variant). -/
structure ReklaRow where
  id : Nat
  filiale : String
  datumJahr : Option Int
deriving DecidableEq, Repr

/-- A row of `reklamation_positionen` as read by the drift (MAX) query of
the variant allocator: owning record and nullable `lfd_nr`. -/
structure PosRow where
  rekId : Nat
  lfd : Option Int
deriving DecidableEq, Repr

/-- The `MAX(lfd_nr)` safety-net query of
`src/routes/reklamationen - Kopie.js` (lines 130-143): the largest non-null
`lfd_nr` among positions whose parent reklamation has the given filiale and
whose `datum` extracts to the given year, `0` if none (COALESCE). -/
def observedFloor (rekls : List ReklaRow) (positionen : List PosRow)
    (filiale : String) (jahr : Int) : Int :=
  positionen.foldl
    (fun acc p =>
      match p.lfd with
      | none => acc
      | some n =>
        if rekls.any (fun r =>
            r.id = p.rekId ∧ r.filiale = filiale ∧ r.datumJahr = some jahr)
        then max acc n else acc)
    0

/-- `allocateLfdNrBlock` of `src/routes/reklamationen - Kopie.js`
(lines 104-161): ensures the counter row, reads `current_value`, reads the
observed MAX, takes `base = max(current_value, maxLfd)`, persists
`base + count` and returns `some (base + 1)`; a non-positive count returns
`null` without touching anything. -/
def allocateLfdNrBlock (counter : CounterMap) (rekls : List ReklaRow)
    (positionen : List PosRow) (filiale : String) (jahr count : Int) :
    CounterMap × Option Int :=
  if count ≤ 0 then (counter, none)
  else
    let currentVal := counter (filiale, jahr)
    let maxLfd := observedFloor rekls positionen filiale jahr
    let base := max currentVal maxLfd
    let newVal := base + count
    (bumpCounter counter filiale jahr newVal, some (base + 1))

/-- `getYearFromDateValue` of the variant files (string case): a date string
matching `^(\d{4})-(\d{2})-(\d{2})` yields the number of its first four
digits, otherwise `null`. -/
def getYearFromDateValue (s : String) : Option Int :=
  match s.data with
  | a :: b :: c :: d :: '-' :: e :: f :: '-' :: g :: h :: _ =>
    if a.isDigit ∧ b.isDigit ∧ c.isDigit ∧ d.isDigit ∧ e.isDigit ∧
       f.isDigit ∧ g.isDigit ∧ h.isDigit then
      some ((a.toNat - 48) * 1000 + (b.toNat - 48) * 100 +
            (c.toNat - 48) * 10 + (d.toNat - 48) : Int)
    else none
  | _ => none

/-- A persisted row of `reklamation_positionen` in the system model.
`lfd` is its running number; `keyF`/`keyJ` record the counter key
(filiale, jahr) under which that number was issued — the pair the
uniqueness invariant is scoped by. -/
structure ItemRow where
  rekId : Nat
  lfd : Int
  keyF : String
  keyJ : Int
deriving DecidableEq, Repr

/-- The persisted state touched by the numbering flows: the counter table,
the `reklamationen` rows, the `reklamation_positionen` rows and the next
serial id for new reklamationen. -/
structure Sys where
  counter : CounterMap
  rekls : List ReklaRow
  items : List ItemRow
  nextId : Nat

/-- Edit-time classification of one proposed position (PUT handler,
lines 359-366 / 386-395 of `src/routes/reklamationen.js`): a proposed item
is retained exactly when it declares a number that is a member of the
submission's previously persisted number set. -/
def retainedB (existing : List Int) (d : Option Int) : Bool :=
  match d with
  | some n => existing.contains n
  | none => false

/-- The counter key under which an existing number of the submission was
issued (recovered from the old rows; used only for the ghost scope of a
retained item). -/
def lookupGhost (oldOfRek : List ItemRow) (n : Int) : String × Int :=
  match oldOfRek.find? (fun it => it.lfd = n) with
  | some it => (it.keyF, it.keyJ)
  | none => ("", 0)

/-- The re-insert loop of the PUT handler (lines 386-409): walk the
proposed positions in order; a retained one keeps its declared number, any
other one takes the current cursor of the freshly allocated block and
advances it. -/
def assignLoop (existing : List Int) (oldOfRek : List ItemRow) (rekId : Nat)
    (filiale : String) (jahr : Int) :
    Int → List (Option Int) → List ItemRow
  | _, [] => []
  | cursor, d :: ds =>
    match d with
    | some n =>
      if existing.contains n then
        ⟨rekId, n, (lookupGhost oldOfRek n).1, (lookupGhost oldOfRek n).2⟩ ::
          assignLoop existing oldOfRek rekId filiale jahr cursor ds
      else
        ⟨rekId, cursor, filiale, jahr⟩ ::
          assignLoop existing oldOfRek rekId filiale jahr (cursor + 1) ds
    | none =>
      ⟨rekId, cursor, filiale, jahr⟩ ::
        assignLoop existing oldOfRek rekId filiale jahr (cursor + 1) ds

/-- POST `/api/reklamationen` of the mounted file (lines 187-273): insert
the reklamation row, then — when positions are present — allocate one block
of `positionen.length` numbers for (filialeFinal, `getCurrentYear()`) and
insert the positions with consecutive numbers from `start`.  `today` is the
wall-clock year; `datumJahr` is the year of the stored `datum` payload
(irrelevant to the allocation in this file). -/
def postRekla (s : Sys) (today : Int) (filiale : String)
    (datumJahr : Option Int) (npos : Nat) : Except String Sys :=
  let rid := s.nextId
  let s1 : Sys :=
    { s with rekls := s.rekls ++ [⟨rid, filiale, datumJahr⟩],
             nextId := rid + 1 }
  if npos = 0 then .ok s1
  else
    match allocateLfdNumbers s1.counter filiale today (npos : Int) with
    | .error e => .error e
    | .ok (c2, some (start, _)) =>
      .ok { s1 with
            counter := c2,
            items := s1.items ++ (List.range npos).map
              (fun i => ⟨rid, start + i, filiale, today⟩) }
    | .ok (_, none) => .error "LFD_NR: unerreichbar (count > 0)"

/-- The submission's own positions
(`SELECT ... WHERE reklamation_id = $1`). -/
def oldOfRek (s : Sys) (rekId : Nat) : List ItemRow :=
  s.items.filter (fun it => it.rekId = rekId)

/-- `existingLfdSet` of the PUT handler: the submission's previously
persisted numbers. -/
def existingLfd (s : Sys) (rekId : Nat) : List Int :=
  (oldOfRek s rekId).map (·.lfd)

/-- The other submissions' positions — what the handler's
`DELETE ... WHERE reklamation_id = $1` keeps. -/
def otherItems (s : Sys) (rekId : Nat) : List ItemRow :=
  s.items.filter (fun it => it.rekId ≠ rekId)

/-- `needsNew.length` of the PUT handler: how many proposed positions fall
into the New class. -/
def newCountOf (s : Sys) (rekId : Nat) (proposal : List (Option Int)) : Nat :=
  (proposal.filter (fun d => !(retainedB (existingLfd s rekId) d))).length

/-- The header UPDATE of the PUT handler: the row of `rekId` gets the
payload's filiale and datum. -/
def updatedRekls (s : Sys) (rekId : Nat) (newFiliale : String)
    (newDatumJahr : Option Int) : List ReklaRow :=
  s.rekls.map (fun r =>
    if r.id = rekId then ⟨rekId, newFiliale, newDatumJahr⟩ else r)

/-- PUT `/api/reklamationen/:id` of the mounted file (lines 285-425):
update the header (404 on a missing id), read the submission's existing
number set, delete its positions, count the proposed positions that need a
new number, allocate exactly that many in one block (only when at least one
is needed), and re-insert every proposed position — retained ones with
their declared number, new ones with consecutive numbers from the block.
`newFiliale` is `data.filiale` (the empty string models a null payload,
which makes the allocator throw), `today` is the wall-clock year. -/
def putRekla (s : Sys) (today : Int) (rekId : Nat) (newFiliale : String)
    (newDatumJahr : Option Int) (proposal : List (Option Int)) :
    Except String Sys :=
  if s.rekls.all (fun r => r.id ≠ rekId) then
    .error "Reklamation nicht gefunden"
  else if proposal.isEmpty then
    .ok ⟨s.counter, updatedRekls s rekId newFiliale newDatumJahr,
         otherItems s rekId, s.nextId⟩
  else if newCountOf s rekId proposal = 0 then
    .ok ⟨s.counter, updatedRekls s rekId newFiliale newDatumJahr,
         otherItems s rekId ++
           assignLoop (existingLfd s rekId) (oldOfRek s rekId) rekId
             newFiliale today 0 proposal,
         s.nextId⟩
  else
    match allocateLfdNumbers s.counter newFiliale today
        (newCountOf s rekId proposal : Int) with
    | .error e => .error e
    | .ok (c2, some (start, _)) =>
      .ok ⟨c2, updatedRekls s rekId newFiliale newDatumJahr,
           otherItems s rekId ++
             assignLoop (existingLfd s rekId) (oldOfRek s rekId) rekId
               newFiliale today start proposal,
           s.nextId⟩
    | .ok (_, none) => .error "LFD_NR: unerreichbar (count > 0)"

/-- DELETE `/api/reklamationen/:id` of the mounted file (lines 505-545):
delete the submission's positions and its header; a missing id rolls the
whole transaction back (404).  The counter is not touched. -/
def deleteRekla (s : Sys) (rekId : Nat) : Except String Sys :=
  if s.rekls.all (fun r => r.id ≠ rekId) then
    .error "Reklamation nicht gefunden"
  else
    .ok { s with rekls := s.rekls.filter (fun r => r.id ≠ rekId),
                 items := s.items.filter (fun it => it.rekId ≠ rekId) }

/-- `BEGIN ... COMMIT` / `catch { ROLLBACK }`: a failed operation leaves
the persisted state unchanged. -/
def commitTx (s : Sys) : Except String Sys → Sys
  | .ok s2 => s2
  | .error _ => s

/-- One client-visible operation of the route file. -/
inductive Op
  | post (today : Int) (filiale : String) (datumJahr : Option Int) (npos : Nat)
  | put (today : Int) (rekId : Nat) (newFiliale : String)
        (newDatumJahr : Option Int) (proposal : List (Option Int))
  | del (rekId : Nat)

/-- Execute one operation with transactional commit-or-rollback. -/
def applyOp (s : Sys) : Op → Sys
  | .post t f dj n => commitTx s (postRekla s t f dj n)
  | .put t rid f dj ps => commitTx s (putRekla s t rid f dj ps)
  | .del rid => commitTx s (deleteRekla s rid)

/-- Execute a sequence of operations. -/
def runOps (s : Sys) (ops : List Op) : Sys := ops.foldl applyOp s

/-- The initial state: empty tables (an absent counter row reads as 0). -/
def emptySys : Sys :=
  { counter := fun _ => 0, rekls := [], items := [], nextId := 0 }

/-- Whether an operation threw. -/
def isErr {α : Type} (e : Except String α) : Bool :=
  match e with
  | .error _ => true
  | .ok _ => false

/-- Two items clash when they carry the same number under the same
counter key. -/
def keyLfdNe (a b : ItemRow) : Prop :=
  ¬ (a.keyF = b.keyF ∧ a.keyJ = b.keyJ ∧ a.lfd = b.lfd)

/-! ## The uniqueness invariant -/

/-- The reachable-state invariant: counters are non-negative, every
persisted number is positive and no larger than the counter of the key it
was issued under, and no two persisted items carry the same number under
the same key. -/
def SysInv (s : Sys) : Prop :=
  (∀ k : CounterKey, 0 ≤ s.counter k)
  ∧ (∀ it, it ∈ s.items → 1 ≤ it.lfd ∧ it.lfd ≤ s.counter (it.keyF, it.keyJ))
  ∧ s.items.Pairwise keyLfdNe

/-- The proposal hygiene an edit needs: its declared numbers are pairwise
distinct (the counterexample run violates exactly this). -/
def okOp : Op → Prop
  | .put _ _ _ _ proposal => (proposal.filterMap id).Pairwise (fun a b => a ≠ b)
  | _ => True

/-! ## Fault injection for rollback atomicity -/

/-- The PUT transaction with a fault injected into the position-INSERT
loop: the transaction body runs (header update, read of the existing set,
delete, allocation); if `failAt = some k` with `k` the index of a proposed
position, the k-th INSERT throws before COMMIT (e.g. a storage error), so
the whole transaction aborts.  Transaction-local writes (the advanced
counter, the partially re-inserted positions) are never visible outside
the transaction, which `commitTx` makes explicit. -/
def putReklaFail (s : Sys) (today : Int) (rekId : Nat) (newFiliale : String)
    (newDatumJahr : Option Int) (proposal : List (Option Int))
    (failAt : Option Nat) : Except String Sys :=
  match putRekla s today rekId newFiliale newDatumJahr proposal with
  | .error e => .error e
  | .ok s2 =>
    match failAt with
    | some k =>
      if k < proposal.length then .error "INSERT fehlgeschlagen" else .ok s2
    | none => .ok s2

/-- The POST transaction with the same fault model. -/
def postReklaFail (s : Sys) (today : Int) (filiale : String)
    (dj : Option Int) (npos : Nat) (failAt : Option Nat) :
    Except String Sys :=
  match postRekla s today filiale dj npos with
  | .error e => .error e
  | .ok s2 =>
    match failAt with
    | some k =>
      if k < npos then .error "INSERT fehlgeschlagen" else .ok s2
    | none => .ok s2

/-- A small concrete state for witnesses: filiale F, year 2025; submission 0
owns numbers {1, 2}, submission 1 owns {3}, counter at 3. -/
def demoSys : Sys :=
  ⟨fun k => if k = ("F", 2025) then 3 else 0,
   [⟨0, "F", some 2025⟩, ⟨1, "F", some 2025⟩],
   [⟨0, 1, "F", 2025⟩, ⟨0, 2, "F", 2025⟩, ⟨1, 3, "F", 2025⟩],
   2⟩

/-- The spec's edit-stability scenario: one submission of filiale F in
2025 with numbers {7, 8}, counter at 8. -/
def editSys : Sys :=
  ⟨fun k => if k = ("F", 2025) then 8 else 0,
   [⟨0, "F", some 2025⟩],
   [⟨0, 7, "F", 2025⟩, ⟨0, 8, "F", 2025⟩],
   1⟩

/-- A well-formed operation sequence for the C1 witness: create two
positions, edit keeping number 1 and adding one position, delete the
submission, then create another submission. -/
def demoOps : List Op :=
  [.post 2025 "F" (some 2025) 2,
   .put 2025 0 "F" (some 2025) [some 1, none],
   .del 0,
   .post 2025 "F" (some 2025) 1]

/-! ## Allocator lemmas -/

/-- Reading the row just written. -/
@[simp] theorem bumpCounter_same (counter : CounterMap) (f : String)
    (j v : Int) : bumpCounter counter f j v (f, j) = v := by
  simp [bumpCounter]

/-- Reading any other row. -/
theorem bumpCounter_other (counter : CounterMap) (f : String) (j v : Int)
    (k : CounterKey) (h : k ≠ (f, j)) : bumpCounter counter f j v k = counter k := by
  simp [bumpCounter, h]

/-- Success shape of the mounted allocator: with a valid filiale, a year in
range and a positive count it reads `base = last_value`, persists
`base + count` and returns the block `(base + 1, base + count)`. -/
theorem allocateLfdNumbers_pos (counter : CounterMap) (filiale : String)
    (jahr count : Int) (hf : trimEmpty filiale = false)
    (hj1 : 2000 ≤ jahr) (hj2 : jahr ≤ 3000) (hc : 0 < count) :
    allocateLfdNumbers counter filiale jahr count =
      .ok (bumpCounter counter filiale jahr (counter (filiale, jahr) + count),
           some (counter (filiale, jahr) + 1, counter (filiale, jahr) + count)) := by
  have h4 : ¬ (counter (filiale, jahr) + count - counter (filiale, jahr) ≠ count) := by
    omega
  unfold allocateLfdNumbers
  rw [if_neg (by simp [hf]), if_neg (by omega), if_neg (by omega)]
  simp only [checkAllocRows, if_neg h4]

/-- C3: Allocator success/failure contract.  For every valid partition key
(non-blank filiale), period in the accepted range and positive count, the
allocator of `src/routes/reklamationen.js` succeeds, returns
`start = base + 1` and persists `base + count` as the counter's new value
(`base` being the locked `last_value`); and the defensive result check
fails with the exact thrown errors when the update returned zero rows or
when the persisted delta differs from `count`. -/
theorem C3_allocator_contract (counter : CounterMap) (filiale : String)
    (jahr count : Int) (hf : trimEmpty filiale = false)
    (hj1 : 2000 ≤ jahr) (hj2 : jahr ≤ 3000) (hc : 0 < count) :
    allocateLfdNumbers counter filiale jahr count =
      .ok (bumpCounter counter filiale jahr (counter (filiale, jahr) + count),
           some (counter (filiale, jahr) + 1, counter (filiale, jahr) + count))
    ∧ checkAllocRows [] count = .error "LFD_NR: Counter-Update fehlgeschlagen"
    ∧ (∀ oldLast newLast : Int, newLast - oldLast ≠ count →
        checkAllocRows [(oldLast, newLast)] count =
          .error "LFD_NR: Counter-Werte inkonsistent") := by
  refine ⟨allocateLfdNumbers_pos _ _ _ _ hf hj1 hj2 hc, rfl, ?_⟩
  intro o n h
  simp [checkAllocRows, h]

/-- Witness for C3 at counter value 10, count 3: block (11, 13), new
counter value 13; zero-row and delta-mismatch results are thrown errors. -/
theorem C3_allocator_contract_witness :
    allocateLfdNumbers (fun _ => 10) "P" 2025 3 =
      .ok (bumpCounter (fun _ => 10) "P" 2025 13, some (11, 13))
    ∧ checkAllocRows [] 3 = .error "LFD_NR: Counter-Update fehlgeschlagen"
    ∧ checkAllocRows [(10, 12)] 3 = .error "LFD_NR: Counter-Werte inkonsistent" := by
  have h := C3_allocator_contract (fun _ => 10) "P" 2025 3 (by decide)
    (by decide) (by decide) (by decide)
  exact ⟨h.1, h.2.1, h.2.2 10 12 (by decide)⟩

/-- C8 counterexample: the claim says a non-positive count signals a thrown
InvalidArgument error; in the code a non-positive count with a valid
filiale and year is NOT an error — it returns the sentinel
`{ start: null, end: null }` and leaves the counter untouched. -/
theorem C8_counterexample :
    allocateLfdNumbers (fun _ => 0) "F" 2024 0 = .ok ((fun _ => 0), none)
    ∧ isErr (allocateLfdNumbers (fun _ => 0) "F" 2024 0) = false := by
  exact ⟨rfl, rfl⟩

/-- C8 (amended): `allocateLfdNumbers` throws exactly when the partition
key is blank or the period lies outside 2000-3000; a non-positive count is
not an error but a sentinel no-op `{start: null, end: null}` that returns
the counter unchanged. -/
theorem C8_invalid_argument (counter : CounterMap) (filiale : String)
    (jahr count : Int) :
    (isErr (allocateLfdNumbers counter filiale jahr count) = true ↔
      trimEmpty filiale = true ∨ jahr < 2000 ∨ 3000 < jahr)
    ∧ (trimEmpty filiale = false → 2000 ≤ jahr → jahr ≤ 3000 → count ≤ 0 →
        allocateLfdNumbers counter filiale jahr count = .ok (counter, none)) := by
  constructor
  · by_cases h1 : trimEmpty filiale = true
    · simp [allocateLfdNumbers, h1, isErr]
    · by_cases h2 : jahr < 2000 ∨ 3000 < jahr
      · simp [allocateLfdNumbers, h1, h2, isErr]
      · by_cases h3 : count ≤ 0
        · simp [allocateLfdNumbers, h1, h2, h3, isErr]
        · rw [allocateLfdNumbers_pos counter filiale jahr count
            (by simpa using h1) (by omega) (by omega) (by omega)]
          simp [isErr, h1, h2]
  · intro hf hj1 hj2 hc
    unfold allocateLfdNumbers
    rw [if_neg (by simp [hf]), if_neg (by omega), if_pos hc]

/-- Witness for C8: a blank filiale and an out-of-range year throw; a
negative count with valid arguments returns the sentinel. -/
theorem C8_invalid_argument_witness :
    isErr (allocateLfdNumbers (fun _ => 0) "" 2024 1) = true
    ∧ isErr (allocateLfdNumbers (fun _ => 0) "F" 1999 1) = true
    ∧ allocateLfdNumbers (fun _ => 0) "F" 2024 (-2) = .ok ((fun _ => 0), none) := by
  refine ⟨?_, ?_, ?_⟩
  · exact (C8_invalid_argument (fun _ => 0) "" 2024 1).1.mpr (Or.inl (by decide))
  · exact (C8_invalid_argument (fun _ => 0) "F" 1999 1).1.mpr
      (Or.inr (Or.inl (by decide)))
  · exact (C8_invalid_argument (fun _ => 0) "F" 2024 (-2)).2
      (by decide) (by decide) (by decide) (by decide)

/-- C2 counterexample: the claim says EVERY allocation takes
`base = max(current_value, observed_floor)` and that with a persisted item
numbered 50 and a counter value of 5 the next single allocation starts at
51.  The allocator of the mounted file `src/routes/reklamationen.js` never
reads the observed floor: in exactly that drift state (floor = 50,
counter = 5) it returns start 6. -/
theorem C2_counterexample :
    observedFloor [⟨1, "P", some 2025⟩] [⟨1, some 50⟩] "P" 2025 = 50
    ∧ allocateLfdNumbers (fun k => if k = ("P", 2025) then 5 else 0) "P" 2025 1 =
        .ok (bumpCounter (fun k => if k = ("P", 2025) then 5 else 0) "P" 2025 6,
             some (6, 6)) := by
  exact ⟨by decide, rfl⟩

/-- C2 (amended): the drift-recovering base computation lives in the
variant allocator `allocateLfdNrBlock`
(`src/routes/reklamationen - Kopie.js`): every allocation with a positive
count takes `base = max(current_value, observed_floor)`, persists
`base + count` and returns `start = base + 1` — so from counter 5 and an
existing item numbered 50 it starts at 51.  The allocator of the mounted
file uses the counter value alone and starts at 6 in that state. -/
theorem C2_drift_recovery (counter : CounterMap) (rekls : List ReklaRow)
    (positionen : List PosRow) (filiale : String) (jahr count : Int)
    (hc : 0 < count) :
    allocateLfdNrBlock counter rekls positionen filiale jahr count =
      (bumpCounter counter filiale jahr
        (max (counter (filiale, jahr))
          (observedFloor rekls positionen filiale jahr) + count),
       some (max (counter (filiale, jahr))
          (observedFloor rekls positionen filiale jahr) + 1)) := by
  unfold allocateLfdNrBlock
  rw [if_neg (by omega)]

/-- Witness for C2's amended theorem at the drift state of the claim:
counter 5, persisted item 50, count 1 — the variant allocator returns
start 51 and persists 51. -/
theorem C2_drift_recovery_witness :
    allocateLfdNrBlock (fun k => if k = ("P", 2025) then 5 else 0)
      [⟨1, "P", some 2025⟩] [⟨1, some 50⟩] "P" 2025 1 =
      (bumpCounter (fun k => if k = ("P", 2025) then 5 else 0) "P" 2025 51,
       some 51) := by
  exact C2_drift_recovery (fun k => if k = ("P", 2025) then 5 else 0)
    [⟨1, "P", some 2025⟩] [⟨1, some 50⟩] "P" 2025 1 (by decide)

/-- C4: Concurrency correctness.  The `FOR UPDATE` row lock serializes two
concurrent allocations on the same (filiale, jahr); in the serialized
execution the second call's base is exactly the first call's persisted
new value, the two returned blocks are disjoint, and together they cover
precisely the contiguous interval above the starting counter value. -/
theorem C4_concurrent_blocks (counter : CounterMap) (filiale : String)
    (jahr c1 c2 : Int) (hf : trimEmpty filiale = false)
    (hj1 : 2000 ≤ jahr) (hj2 : jahr ≤ 3000) (h1 : 0 < c1) (h2 : 0 < c2) :
    allocateLfdNumbers counter filiale jahr c1 =
      .ok (bumpCounter counter filiale jahr (counter (filiale, jahr) + c1),
           some (counter (filiale, jahr) + 1, counter (filiale, jahr) + c1))
    ∧ bumpCounter counter filiale jahr (counter (filiale, jahr) + c1)
        (filiale, jahr) = counter (filiale, jahr) + c1
    ∧ allocateLfdNumbers
        (bumpCounter counter filiale jahr (counter (filiale, jahr) + c1))
        filiale jahr c2 =
      .ok (bumpCounter
             (bumpCounter counter filiale jahr (counter (filiale, jahr) + c1))
             filiale jahr (counter (filiale, jahr) + c1 + c2),
           some (counter (filiale, jahr) + c1 + 1,
                 counter (filiale, jahr) + c1 + c2))
    ∧ Disjoint
        (Finset.Icc (counter (filiale, jahr) + 1) (counter (filiale, jahr) + c1))
        (Finset.Icc (counter (filiale, jahr) + c1 + 1)
          (counter (filiale, jahr) + c1 + c2))
    ∧ Finset.Icc (counter (filiale, jahr) + 1) (counter (filiale, jahr) + c1) ∪
        Finset.Icc (counter (filiale, jahr) + c1 + 1)
          (counter (filiale, jahr) + c1 + c2) =
        Finset.Icc (counter (filiale, jahr) + 1)
          (counter (filiale, jahr) + c1 + c2) := by
  refine ⟨allocateLfdNumbers_pos _ _ _ _ hf hj1 hj2 h1,
    bumpCounter_same _ _ _ _, ?_, ?_, ?_⟩
  · rw [allocateLfdNumbers_pos _ _ _ _ hf hj1 hj2 h2]
    simp [bumpCounter_same, add_assoc]
  · rw [Finset.disjoint_left]
    intro a ha hb
    simp only [Finset.mem_Icc] at ha hb
    omega
  · ext a
    simp only [Finset.mem_Icc, Finset.mem_union]
    omega

/-- Witness for C4 at the spec's example: from counter value 10, counts 3
and 2 give the blocks (11, 13) and (14, 15); {11..13} and {14..15} are
disjoint and together are exactly {11..15}. -/
theorem C4_concurrent_blocks_witness :
    allocateLfdNumbers (fun _ => 10) "P" 2025 3 =
      .ok (bumpCounter (fun _ => 10) "P" 2025 13, some (11, 13))
    ∧ bumpCounter (fun _ => 10) "P" 2025 13 ("P", 2025) = 13
    ∧ allocateLfdNumbers (bumpCounter (fun _ => 10) "P" 2025 13) "P" 2025 2 =
      .ok (bumpCounter (bumpCounter (fun _ => 10) "P" 2025 13) "P" 2025 15,
           some (14, 15))
    ∧ Disjoint (Finset.Icc (11 : Int) 13) (Finset.Icc (14 : Int) 15)
    ∧ Finset.Icc (11 : Int) 13 ∪ Finset.Icc (14 : Int) 15 =
        Finset.Icc (11 : Int) 15 := by
  exact C4_concurrent_blocks (fun _ => 10) "P" 2025 3 2 (by decide)
    (by decide) (by decide) (by decide) (by decide)

/-- The honestly computed update row always passes the defensive check. -/
theorem checkAllocRows_delta (o c : Int) :
    checkAllocRows [(o, o + c)] c = .ok (o, o + c) := by
  simp [checkAllocRows]

/-- Inversion: a successful run of the mounted allocator is either the
sentinel no-op (non-positive count) or the block above the old counter. -/
theorem allocateLfdNumbers_ok (counter : CounterMap) (filiale : String)
    (jahr count : Int) (c2 : CounterMap) (r : Option (Int × Int))
    (h : allocateLfdNumbers counter filiale jahr count = .ok (c2, r)) :
    (count ≤ 0 ∧ c2 = counter ∧ r = none)
    ∨ (0 < count ∧
        c2 = bumpCounter counter filiale jahr (counter (filiale, jahr) + count) ∧
        r = some (counter (filiale, jahr) + 1, counter (filiale, jahr) + count)) := by
  unfold allocateLfdNumbers at h
  split_ifs at h with hf hj hc
  · left
    simp only [Except.ok.injEq, Prod.mk.injEq] at h
    exact ⟨hc, h.1.symm, h.2.symm⟩
  · simp only [checkAllocRows_delta] at h
    right
    simp only [Except.ok.injEq, Prod.mk.injEq] at h
    exact ⟨by omega, h.1.symm, h.2.symm⟩

/-- C9 counterexample: the claim says the period is derived from the stored
`datum`; in the mounted file it is `getCurrentYear()` (wall clock).  A
submission back-dated to 2023 created while the wall clock reads 2025 gets
its item numbered in the 2025 series: the 2023 counter stays 0 and the
2025 counter advances. -/
theorem C9_counterexample :
    (runOps emptySys [.post 2025 "F" (some 2023) 1]).items =
      [⟨0, 1, "F", 2025⟩]
    ∧ (runOps emptySys [.post 2025 "F" (some 2023) 1]).counter ("F", 2023) = 0
    ∧ (runOps emptySys [.post 2025 "F" (some 2023) 1]).counter ("F", 2025) = 1 := by
  exact ⟨by decide, by decide, by decide⟩

/-- C9 (amended): in the mounted route file the period that scopes a new
submission's numbers is the wall-clock year (`getCurrentYear()`), not the
stored `datum`: every item a create adds is issued under
(filiale, today), no counter row of another year moves, and the outcome is
entirely independent of the submission's `datum` year.  (The derivation
from the effective date exists only in the variant files, whose
`getYearFromDateValue` reads the year out of the date string.) -/
theorem C9_wall_clock_period (s : Sys) (today : Int) (filiale : String)
    (dj dj2 : Option Int) (npos : Nat) (s2 : Sys)
    (h : postRekla s today filiale dj npos = .ok s2) :
    (∀ it ∈ s2.items, it ∈ s.items ∨ (it.keyF = filiale ∧ it.keyJ = today))
    ∧ (∀ k : CounterKey, k.2 ≠ today → s2.counter k = s.counter k)
    ∧ (∃ s3, postRekla s today filiale dj2 npos = .ok s3 ∧
        s3.counter = s2.counter ∧ s3.items = s2.items)
    ∧ getYearFromDateValue "2023-05-10" = some 2023 := by
  simp only [postRekla] at h ⊢
  by_cases hn : npos = 0
  · simp only [if_pos hn] at h ⊢
    simp only [Except.ok.injEq] at h
    subst h
    exact ⟨fun it hit => Or.inl hit, fun k _ => rfl, ⟨_, rfl, rfl, rfl⟩, by decide⟩
  · simp only [if_neg hn] at h ⊢
    cases halloc : allocateLfdNumbers s.counter filiale today (npos : Int) with
    | error e =>
      rw [halloc] at h
      exact absurd h (by simp)
    | ok p =>
      obtain ⟨c2, r⟩ := p
      rw [halloc] at h
      rcases allocateLfdNumbers_ok _ _ _ _ _ _ halloc with
        ⟨hc, _, hr⟩ | ⟨hc, hcc, hr⟩
      · exact absurd hc (by omega)
      · subst hr
        simp only [Except.ok.injEq] at h
        subst h
        refine ⟨?_, ?_, ⟨_, rfl, rfl, rfl⟩, by decide⟩
        · intro it hit
          rcases List.mem_append.mp hit with hold | hnew
          · exact Or.inl hold
          · right
            rcases List.mem_map.mp hnew with ⟨i, _, hi⟩
            subst hi
            exact ⟨rfl, rfl⟩
        · intro k hk
          rw [hcc]
          exact bumpCounter_other _ _ _ _ _ (by
            intro hek
            exact hk (by rw [hek]))

/-! ## Lemmas about the re-insert loop -/

theorem keyLfdNe_symm : ∀ {a b : ItemRow}, keyLfdNe a b → keyLfdNe b a := by
  intro a b h hc
  exact h ⟨hc.1.symm, hc.2.1.symm, hc.2.2.symm⟩

/-- The loop inserts one position per proposed position. -/
theorem assignLoop_length (existing : List Int) (old : List ItemRow)
    (rid : Nat) (f : String) (j : Int) :
    ∀ (ds : List (Option Int)) (cursor : Int),
      (assignLoop existing old rid f j cursor ds).length = ds.length := by
  intro ds
  induction ds with
  | nil => intro cursor; rfl
  | cons d ds ih =>
    intro cursor
    cases d with
    | none => simp [assignLoop, ih]
    | some n =>
      by_cases hn : n ∈ existing
      · simp [assignLoop, hn, ih]
      · simp [assignLoop, hn, ih]

/-- A proposed position declaring a member of the existing set keeps
exactly that number (with the key it was issued under). -/
theorem assignLoop_retained (existing : List Int) (old : List ItemRow)
    (rid : Nat) (f : String) (j : Int) :
    ∀ (ds : List (Option Int)) (cursor : Int) (i : Nat) (n : Int),
      ds[i]? = some (some n) → n ∈ existing →
      (assignLoop existing old rid f j cursor ds)[i]? =
        some ⟨rid, n, (lookupGhost old n).1, (lookupGhost old n).2⟩ := by
  intro ds
  induction ds with
  | nil => intro cursor i n h; simp at h
  | cons d ds ih =>
    intro cursor i n hd hn
    match i with
    | 0 =>
      simp only [List.getElem?_cons_zero, Option.some.injEq] at hd
      subst hd
      simp [assignLoop, hn]
    | Nat.succ i =>
      simp only [List.getElem?_cons_succ] at hd
      cases d with
      | none => simpa [assignLoop] using ih (cursor + 1) i n hd hn
      | some m =>
        by_cases hm : m ∈ existing
        · simpa [assignLoop, hm] using ih cursor i n hd hn
        · simpa [assignLoop, hm] using ih (cursor + 1) i n hd hn

/-- A proposed position that is not retained — no declared number, or a
declared number outside the existing set — receives the cursor advanced by
the number of New positions strictly before it; the declared number (if
any) plays no role in the value received. -/
theorem assignLoop_new (existing : List Int) (old : List ItemRow)
    (rid : Nat) (f : String) (j : Int) :
    ∀ (ds : List (Option Int)) (cursor : Int) (i : Nat) (d : Option Int),
      ds[i]? = some d → retainedB existing d = false →
      (assignLoop existing old rid f j cursor ds)[i]? =
        some ⟨rid,
          cursor +
            (((ds.take i).filter (fun x => !(retainedB existing x))).length : Int),
          f, j⟩ := by
  intro ds
  induction ds with
  | nil => intro cursor i d h; simp at h
  | cons d0 ds ih =>
    intro cursor i d hd hnew
    match i with
    | 0 =>
      simp only [List.getElem?_cons_zero, Option.some.injEq] at hd
      subst hd
      cases d0 with
      | none => simp [assignLoop]
      | some m =>
        have hm : ¬ m ∈ existing := by
          simpa [retainedB] using hnew
        simp [assignLoop, hm]
    | Nat.succ i =>
      simp only [List.getElem?_cons_succ] at hd
      cases d0 with
      | none =>
        have step : (assignLoop existing old rid f j cursor (none :: ds))[i + 1]? =
            (assignLoop existing old rid f j (cursor + 1) ds)[i]? := by
          simp [assignLoop]
        rw [step, ih (cursor + 1) i d hd hnew]
        have hlen : ((none :: ds).take (i + 1)).filter
            (fun x => !(retainedB existing x)) =
            none :: (ds.take i).filter (fun x => !(retainedB existing x)) := by
          simp [List.take_succ_cons, List.filter_cons, retainedB]
        rw [hlen, List.length_cons]
        have harith : cursor + 1 +
            ((((ds.take i).filter (fun x => !(retainedB existing x))).length : Nat) : Int) =
            cursor + (((((ds.take i).filter
              (fun x => !(retainedB existing x))).length + 1 : Nat)) : Int) := by
          push_cast
          ring
        rw [harith]
      | some m =>
        by_cases hm : m ∈ existing
        · have step : (assignLoop existing old rid f j cursor (some m :: ds))[i + 1]? =
              (assignLoop existing old rid f j cursor ds)[i]? := by
            simp [assignLoop, hm]
          rw [step, ih cursor i d hd hnew]
          have hlen : ((some m :: ds).take (i + 1)).filter
              (fun x => !(retainedB existing x)) =
              (ds.take i).filter (fun x => !(retainedB existing x)) := by
            simp [List.take_succ_cons, List.filter_cons, retainedB, hm]
          rw [hlen]
        · have step : (assignLoop existing old rid f j cursor (some m :: ds))[i + 1]? =
              (assignLoop existing old rid f j (cursor + 1) ds)[i]? := by
            simp [assignLoop, hm]
          rw [step, ih (cursor + 1) i d hd hnew]
          have hlen : ((some m :: ds).take (i + 1)).filter
              (fun x => !(retainedB existing x)) =
              some m :: (ds.take i).filter (fun x => !(retainedB existing x)) := by
            simp [List.take_succ_cons, List.filter_cons, retainedB, hm]
          rw [hlen, List.length_cons]
          have harith : cursor + 1 +
              ((((ds.take i).filter (fun x => !(retainedB existing x))).length : Nat) : Int) =
              cursor + (((((ds.take i).filter
                (fun x => !(retainedB existing x))).length + 1 : Nat)) : Int) := by
            push_cast
            ring
          rw [harith]

/-- The item a retained declaration re-inserts is exactly the old row that
carried that number: it is a member of the old row set. -/
theorem retainedItem_mem (old : List ItemRow) (rid : Nat) (n : Int)
    (hex : ∃ it, it ∈ old ∧ it.lfd = n)
    (hold : ∀ it, it ∈ old → it.rekId = rid) :
    (⟨rid, n, (lookupGhost old n).1, (lookupGhost old n).2⟩ : ItemRow) ∈ old := by
  obtain ⟨it, hmem, hlfd⟩ := hex
  have hsome : (old.find? (fun it => it.lfd = n)).isSome := by
    rw [List.find?_isSome]
    exact ⟨it, hmem, by simp [hlfd]⟩
  obtain ⟨it2, hfind⟩ := Option.isSome_iff_exists.mp hsome
  have hmem2 : it2 ∈ old := List.mem_of_find?_eq_some hfind
  have hlfd2 : it2.lfd = n := by
    have := List.find?_some hfind
    simpa using this
  have hrek2 : it2.rekId = rid := hold it2 hmem2
  have hg : lookupGhost old n = (it2.keyF, it2.keyJ) := by
    simp [lookupGhost, hfind]
  rw [hg]
  have hx : (⟨rid, n, it2.keyF, it2.keyJ⟩ : ItemRow) = it2 := by
    cases it2
    simp_all
  rw [hx]
  exact hmem2

/-- Every item the loop produces is either a re-inserted old row (retained:
its number is in the existing set, was declared, and it carries the key it
was issued under) or a freshly numbered row in the half-open block that
starts at the cursor. -/
theorem assignLoop_mem (existing : List Int) (old : List ItemRow)
    (rid : Nat) (f : String) (j : Int)
    (hex : ∀ n, n ∈ existing → ∃ it, it ∈ old ∧ it.lfd = n)
    (hold : ∀ it, it ∈ old → it.rekId = rid) :
    ∀ (ds : List (Option Int)) (cursor : Int) (x : ItemRow),
      x ∈ assignLoop existing old rid f j cursor ds →
      (x ∈ old ∧ x.lfd ∈ existing ∧ x.lfd ∈ ds.filterMap id ∧
        (x.keyF, x.keyJ) = lookupGhost old x.lfd) ∨
      (x.rekId = rid ∧ x.keyF = f ∧ x.keyJ = j ∧ cursor ≤ x.lfd ∧
        x.lfd < cursor +
          ((ds.filter (fun d => !(retainedB existing d))).length : Int)) := by
  intro ds
  induction ds with
  | nil => intro cursor x h; simp [assignLoop] at h
  | cons d ds ih =>
    intro cursor x hx
    cases d with
    | none =>
      have hfil : ((none :: ds).filter (fun d => !(retainedB existing d))).length =
          (ds.filter (fun d => !(retainedB existing d))).length + 1 := by
        simp [List.filter_cons, retainedB]
      rcases List.mem_cons.mp hx with rfl | hx2
      · right
        exact ⟨rfl, rfl, rfl, le_refl _, by rw [hfil]; push_cast; omega⟩
      · rcases ih (cursor + 1) x hx2 with hret | hfresh
        · left
          exact ⟨hret.1, hret.2.1, by simpa using hret.2.2.1, hret.2.2.2⟩
        · right
          refine ⟨hfresh.1, hfresh.2.1, hfresh.2.2.1, by omega, ?_⟩
          rw [hfil]
          push_cast
          omega
    | some n =>
      by_cases hn : n ∈ existing
      · have hstep : assignLoop existing old rid f j cursor (some n :: ds) =
            ⟨rid, n, (lookupGhost old n).1, (lookupGhost old n).2⟩ ::
              assignLoop existing old rid f j cursor ds := by
          simp [assignLoop, hn]
        rw [hstep] at hx
        have hfil : ((some n :: ds).filter (fun d => !(retainedB existing d))) =
            ds.filter (fun d => !(retainedB existing d)) := by
          simp [List.filter_cons, retainedB, hn]
        rcases List.mem_cons.mp hx with rfl | hx2
        · left
          refine ⟨retainedItem_mem old rid n (hex n hn) hold, hn, ?_, rfl⟩
          simp
        · rcases ih cursor x hx2 with hret | hfresh
          · left
            exact ⟨hret.1, hret.2.1, by simpa using Or.inr hret.2.2.1, hret.2.2.2⟩
          · right
            rw [hfil]
            exact hfresh
      · have hstep : assignLoop existing old rid f j cursor (some n :: ds) =
            ⟨rid, cursor, f, j⟩ ::
              assignLoop existing old rid f j (cursor + 1) ds := by
          simp [assignLoop, hn]
        rw [hstep] at hx
        have hfil : ((some n :: ds).filter (fun d => !(retainedB existing d))).length =
            (ds.filter (fun d => !(retainedB existing d))).length + 1 := by
          simp [List.filter_cons, retainedB, hn]
        rcases List.mem_cons.mp hx with rfl | hx2
        · right
          exact ⟨rfl, rfl, rfl, le_refl _, by rw [hfil]; push_cast; omega⟩
        · rcases ih (cursor + 1) x hx2 with hret | hfresh
          · left
            exact ⟨hret.1, hret.2.1, by simpa using Or.inr hret.2.2.1, hret.2.2.2⟩
          · right
            refine ⟨hfresh.1, hfresh.2.1, hfresh.2.2.1, by omega, ?_⟩
            rw [hfil]
            push_cast
            omega

/-- The loop never produces two items with the same number under the same
key, provided the declared numbers of the proposal are pairwise distinct
and every existing number whose issuing key is the currently allocating
key lies strictly below the cursor. -/
theorem assignLoop_pairwise (existing : List Int) (old : List ItemRow)
    (rid : Nat) (f : String) (j : Int)
    (hex : ∀ n, n ∈ existing → ∃ it, it ∈ old ∧ it.lfd = n)
    (hold : ∀ it, it ∈ old → it.rekId = rid) :
    ∀ (ds : List (Option Int)) (cursor : Int),
      (ds.filterMap id).Pairwise (fun a b => a ≠ b) →
      (∀ n, n ∈ existing → lookupGhost old n = (f, j) → n < cursor) →
      (assignLoop existing old rid f j cursor ds).Pairwise keyLfdNe := by
  intro ds
  induction ds with
  | nil => intro cursor _ _; exact List.Pairwise.nil
  | cons d ds ih =>
    intro cursor hdist hcur
    cases d with
    | none =>
      have hstep : assignLoop existing old rid f j cursor (none :: ds) =
          ⟨rid, cursor, f, j⟩ ::
            assignLoop existing old rid f j (cursor + 1) ds := rfl
      rw [hstep, List.pairwise_cons]
      constructor
      · intro y hy hcl
        obtain ⟨h1, h2, h3⟩ := hcl
        rcases assignLoop_mem existing old rid f j hex hold ds (cursor + 1) y hy with
          hret | hfresh
        · have hg : lookupGhost old y.lfd = (f, j) := by
            rw [← hret.2.2.2, ← h1, ← h2]
          have := hcur y.lfd hret.2.1 hg
          simp only at h3
          omega
        · simp only at h3
          omega
      · refine ih (cursor + 1) (by simpa using hdist) ?_
        intro n hn hg
        have := hcur n hn hg
        omega
    | some n =>
      by_cases hn : n ∈ existing
      · have hstep : assignLoop existing old rid f j cursor (some n :: ds) =
            ⟨rid, n, (lookupGhost old n).1, (lookupGhost old n).2⟩ ::
              assignLoop existing old rid f j cursor ds := by
          simp [assignLoop, hn]
        have hfm : (some n :: ds).filterMap id = n :: ds.filterMap id := by simp
        rw [hfm, List.pairwise_cons] at hdist
        rw [hstep, List.pairwise_cons]
        constructor
        · intro y hy hcl
          obtain ⟨h1, h2, h3⟩ := hcl
          simp only at h1 h2 h3
          rcases assignLoop_mem existing old rid f j hex hold ds cursor y hy with
            hret | hfresh
          · exact hdist.1 y.lfd hret.2.2.1 h3
          · have hg : lookupGhost old n = (f, j) := by
              rw [Prod.ext_iff]
              exact ⟨h1.trans hfresh.2.1, h2.trans hfresh.2.2.1⟩
            have := hcur n hn hg
            have := hfresh.2.2.2.1
            omega
        · exact ih cursor hdist.2 hcur
      · have hstep : assignLoop existing old rid f j cursor (some n :: ds) =
            ⟨rid, cursor, f, j⟩ ::
              assignLoop existing old rid f j (cursor + 1) ds := by
          simp [assignLoop, hn]
        have hfm : (some n :: ds).filterMap id = n :: ds.filterMap id := by simp
        rw [hfm, List.pairwise_cons] at hdist
        rw [hstep, List.pairwise_cons]
        constructor
        · intro y hy hcl
          obtain ⟨h1, h2, h3⟩ := hcl
          simp only at h1 h2 h3
          rcases assignLoop_mem existing old rid f j hex hold ds (cursor + 1) y hy with
            hret | hfresh
          · have hg : lookupGhost old y.lfd = (f, j) := by
              rw [← hret.2.2.2, ← h1, ← h2]
            have := hcur y.lfd hret.2.1 hg
            omega
          · have := hfresh.2.2.2.1
            omega
        · refine ih (cursor + 1) hdist.2 ?_
          intro m hm hg
          have := hcur m hm hg
          omega

/-- When no proposed position needs a new number the loop never reads the
cursor (in the handler `nextNew` stays `null` in that case). -/
theorem assignLoop_cursor_irrel (existing : List Int) (old : List ItemRow)
    (rid : Nat) (f : String) (j : Int) :
    ∀ (ds : List (Option Int)),
      (ds.filter (fun d => !(retainedB existing d))).length = 0 →
      ∀ (c1 c2 : Int),
      assignLoop existing old rid f j c1 ds =
        assignLoop existing old rid f j c2 ds := by
  intro ds
  induction ds with
  | nil => intro _ c1 c2; rfl
  | cons d ds ih =>
    intro h c1 c2
    cases d with
    | none =>
      exfalso
      simp [List.filter_cons, retainedB] at h
    | some n =>
      by_cases hn : n ∈ existing
      · have ht : (ds.filter (fun d => !(retainedB existing d))).length = 0 := by
          simpa [List.filter_cons, retainedB, hn] using h
        simp [assignLoop, hn, ih ht c1 c2]
      · exfalso
        simp [List.filter_cons, retainedB, hn] at h

/-! ## Inversion of the route handlers -/

/-- Success shape of the PUT handler. -/
theorem putRekla_ok (s : Sys) (today : Int) (rekId : Nat) (newFiliale : String)
    (newDatumJahr : Option Int) (proposal : List (Option Int)) (s2 : Sys)
    (h : putRekla s today rekId newFiliale newDatumJahr proposal = .ok s2) :
    (proposal = [] ∧
      s2 = ⟨s.counter, updatedRekls s rekId newFiliale newDatumJahr,
            otherItems s rekId, s.nextId⟩)
    ∨ (proposal ≠ [] ∧ newCountOf s rekId proposal = 0 ∧
      s2 = ⟨s.counter, updatedRekls s rekId newFiliale newDatumJahr,
            otherItems s rekId ++
              assignLoop (existingLfd s rekId) (oldOfRek s rekId) rekId
                newFiliale today 0 proposal, s.nextId⟩)
    ∨ (proposal ≠ [] ∧ 0 < newCountOf s rekId proposal ∧
      s2 = ⟨bumpCounter s.counter newFiliale today
              (s.counter (newFiliale, today) + newCountOf s rekId proposal),
            updatedRekls s rekId newFiliale newDatumJahr,
            otherItems s rekId ++
              assignLoop (existingLfd s rekId) (oldOfRek s rekId) rekId
                newFiliale today (s.counter (newFiliale, today) + 1) proposal,
            s.nextId⟩) := by
  unfold putRekla at h
  by_cases h404 : s.rekls.all (fun r => r.id ≠ rekId)
  · rw [if_pos h404] at h
    simp at h
  · rw [if_neg h404] at h
    by_cases hemp : proposal.isEmpty
    · rw [if_pos hemp] at h
      left
      simp only [Except.ok.injEq] at h
      exact ⟨List.isEmpty_iff.mp hemp, h.symm⟩
    · rw [if_neg hemp] at h
      have hne : proposal ≠ [] := by
        intro hcon
        simp [hcon] at hemp
      by_cases hzero : newCountOf s rekId proposal = 0
      · rw [if_pos hzero] at h
        right; left
        simp only [Except.ok.injEq] at h
        exact ⟨hne, hzero, h.symm⟩
      · rw [if_neg hzero] at h
        right; right
        cases halloc : allocateLfdNumbers s.counter newFiliale today
            (newCountOf s rekId proposal : Int) with
        | error e =>
          rw [halloc] at h
          simp at h
        | ok p =>
          obtain ⟨c2, r⟩ := p
          rw [halloc] at h
          rcases allocateLfdNumbers_ok _ _ _ _ _ _ halloc with
            ⟨hc, _, _⟩ | ⟨hc, hcc, hr⟩
          · exfalso
            omega
          · subst hr
            subst hcc
            simp only [Except.ok.injEq] at h
            exact ⟨hne, Nat.pos_of_ne_zero hzero, h.symm⟩

/-- Success shape of the POST handler. -/
theorem postRekla_ok (s : Sys) (today : Int) (filiale : String)
    (dj : Option Int) (npos : Nat) (s2 : Sys)
    (h : postRekla s today filiale dj npos = .ok s2) :
    (npos = 0 ∧
      s2 = ⟨s.counter, s.rekls ++ [⟨s.nextId, filiale, dj⟩], s.items,
            s.nextId + 1⟩)
    ∨ (0 < npos ∧
      s2 = ⟨bumpCounter s.counter filiale today
              (s.counter (filiale, today) + npos),
            s.rekls ++ [⟨s.nextId, filiale, dj⟩],
            s.items ++ (List.range npos).map
              (fun i => ⟨s.nextId, s.counter (filiale, today) + 1 + i,
                         filiale, today⟩),
            s.nextId + 1⟩) := by
  simp only [postRekla] at h
  by_cases hn : npos = 0
  · rw [if_pos hn] at h
    left
    simp only [Except.ok.injEq] at h
    exact ⟨hn, h.symm⟩
  · rw [if_neg hn] at h
    right
    cases halloc : allocateLfdNumbers s.counter filiale today (npos : Int) with
    | error e =>
      rw [halloc] at h
      simp at h
    | ok p =>
      obtain ⟨c2, r⟩ := p
      rw [halloc] at h
      rcases allocateLfdNumbers_ok _ _ _ _ _ _ halloc with
        ⟨hc, _, _⟩ | ⟨hc, hcc, hr⟩
      · exfalso
        omega
      · subst hr
        subst hcc
        simp only [Except.ok.injEq] at h
        exact ⟨Nat.pos_of_ne_zero hn, h.symm⟩

/-- Success shape of the DELETE handler. -/
theorem deleteRekla_ok (s : Sys) (rekId : Nat) (s2 : Sys)
    (h : deleteRekla s rekId = .ok s2) :
    s2 = ⟨s.counter, s.rekls.filter (fun r => r.id ≠ rekId),
          s.items.filter (fun it => it.rekId ≠ rekId), s.nextId⟩ := by
  unfold deleteRekla at h
  by_cases h404 : s.rekls.all (fun r => r.id ≠ rekId)
  · rw [if_pos h404] at h
    simp at h
  · rw [if_neg h404] at h
    simp only [Except.ok.injEq] at h
    exact h.symm

/-! ## Facts about the PUT handler's working sets -/

theorem oldOfRek_rekId (s : Sys) (rekId : Nat) :
    ∀ it, it ∈ oldOfRek s rekId → it.rekId = rekId := by
  intro it hit
  have := (List.mem_filter.mp hit).2
  simpa using this

theorem oldOfRek_sub (s : Sys) (rekId : Nat) :
    ∀ it, it ∈ oldOfRek s rekId → it ∈ s.items := by
  intro it hit
  exact (List.mem_filter.mp hit).1

theorem otherItems_sub (s : Sys) (rekId : Nat) :
    ∀ it, it ∈ otherItems s rekId → it ∈ s.items ∧ it.rekId ≠ rekId := by
  intro it hit
  have := List.mem_filter.mp hit
  exact ⟨this.1, by simpa using this.2⟩

theorem existingLfd_exists (s : Sys) (rekId : Nat) :
    ∀ n, n ∈ existingLfd s rekId →
      ∃ it, it ∈ oldOfRek s rekId ∧ it.lfd = n := by
  intro n hn
  obtain ⟨it, hmem, hl⟩ := List.mem_map.mp hn
  exact ⟨it, hmem, hl⟩

/-- When the deficit is zero every proposed position is retained. -/
theorem newCount_zero_all_retained (s : Sys) (rekId : Nat)
    (proposal : List (Option Int)) (h : newCountOf s rekId proposal = 0) :
    ∀ d, d ∈ proposal → retainedB (existingLfd s rekId) d = true := by
  intro d hd
  by_contra hfalse
  have hmem : d ∈ proposal.filter
      (fun x => !(retainedB (existingLfd s rekId) x)) := by
    rw [List.mem_filter]
    refine ⟨hd, ?_⟩
    simp only [Bool.not_eq_true] at hfalse
    simp [hfalse]
  rw [newCountOf, List.length_eq_zero] at h
  rw [h] at hmem
  simp at hmem

/-- The submission's rows in the updated item table are exactly the output
of the re-insert loop (the rows of other submissions are untouched). -/
theorem putItems_filter (s : Sys) (rekId : Nat) (newFiliale : String)
    (today cursor : Int) (proposal : List (Option Int)) :
    ((otherItems s rekId ++
        assignLoop (existingLfd s rekId) (oldOfRek s rekId) rekId
          newFiliale today cursor proposal).filter
      (fun it => it.rekId = rekId)) =
      assignLoop (existingLfd s rekId) (oldOfRek s rekId) rekId
        newFiliale today cursor proposal := by
  rw [List.filter_append]
  have h1 : (otherItems s rekId).filter (fun it => it.rekId = rekId) = [] := by
    rw [List.filter_eq_nil_iff]
    intro a ha
    have := (otherItems_sub s rekId a ha).2
    simpa using this
  have h2 : ((assignLoop (existingLfd s rekId) (oldOfRek s rekId) rekId
      newFiliale today cursor proposal).filter
        (fun it => it.rekId = rekId)) =
      assignLoop (existingLfd s rekId) (oldOfRek s rekId) rekId
        newFiliale today cursor proposal := by
    rw [List.filter_eq_self]
    intro a ha
    rcases assignLoop_mem (existingLfd s rekId) (oldOfRek s rekId) rekId
        newFiliale today (existingLfd_exists s rekId) (oldOfRek_rekId s rekId)
        proposal cursor a ha with hret | hfresh
    · simpa using oldOfRek_rekId s rekId a hret.1
    · simpa using hfresh.1
  rw [h1, h2, List.nil_append]

/-- C5: Edit-time classification and foreign-number rejection.  In the PUT
handler, the i-th proposed position keeps a declared number exactly when
that number belongs to the submission's previously persisted set; any
other proposed position (no number, fabricated number, or a number of a
different submission) is New: the number it receives is the block start
plus the count of New positions before it — a value that does not depend
on the declared number — and a declared number that was issued under the
same (filiale, jahr) key to a different submission is never persisted for
that position. -/
theorem C5_edit_classification (s : Sys) (today : Int) (rekId : Nat)
    (newFiliale : String) (newDatumJahr : Option Int)
    (proposal : List (Option Int)) (s2 : Sys) (i : Nat) (d : Option Int)
    (h : putRekla s today rekId newFiliale newDatumJahr proposal = .ok s2)
    (hd : proposal[i]? = some d) :
    ((s2.items.filter (fun it => it.rekId = rekId)).length = proposal.length)
    ∧ (∀ n, d = some n → n ∈ existingLfd s rekId →
        ((s2.items.filter (fun it => it.rekId = rekId))[i]?.map (·.lfd)) =
          some n)
    ∧ (retainedB (existingLfd s rekId) d = false →
        ((s2.items.filter (fun it => it.rekId = rekId))[i]?.map (·.lfd)) =
          some (s.counter (newFiliale, today) + 1 +
            (((proposal.take i).filter
              (fun x => !(retainedB (existingLfd s rekId) x))).length : Int)))
    ∧ (∀ n, d = some n → ¬ n ∈ existingLfd s rekId →
        (∀ it, it ∈ s.items →
          1 ≤ it.lfd ∧ it.lfd ≤ s.counter (it.keyF, it.keyJ)) →
        (∃ it, it ∈ s.items ∧ it.rekId ≠ rekId ∧ it.keyF = newFiliale ∧
          it.keyJ = today ∧ it.lfd = n) →
        ((s2.items.filter (fun it => it.rekId = rekId))[i]?.map (·.lfd)) ≠
          some n) := by
  have hdm : d ∈ proposal := by
    exact List.getElem?_mem hd
  rcases putRekla_ok s today rekId newFiliale newDatumJahr proposal s2 h with
    ⟨hnil, _⟩ | ⟨hne, hzero, hs2⟩ | ⟨hne, hpos, hs2⟩
  · subst hnil
    simp at hd
  · -- all proposed positions are retained; the block is never requested
    subst hs2
    simp only
    rw [putItems_filter]
    have hall := newCount_zero_all_retained s rekId proposal hzero d hdm
    refine ⟨by rw [assignLoop_length], ?_, ?_, ?_⟩
    · intro n hdn hmem
      subst hdn
      rw [assignLoop_retained (existingLfd s rekId) (oldOfRek s rekId) rekId
        newFiliale today proposal 0 i n hd hmem]
      simp
    · intro hnew
      rw [hall] at hnew
      cases hnew
    · intro n hdn hmem _ _
      subst hdn
      simp [retainedB] at hall
      exact absurd hall hmem
  · subst hs2
    simp only
    rw [putItems_filter]
    refine ⟨by rw [assignLoop_length], ?_, ?_, ?_⟩
    · intro n hdn hmem
      subst hdn
      rw [assignLoop_retained (existingLfd s rekId) (oldOfRek s rekId) rekId
        newFiliale today proposal (s.counter (newFiliale, today) + 1) i n hd hmem]
      simp
    · intro hnew
      rw [assignLoop_new (existingLfd s rekId) (oldOfRek s rekId) rekId
        newFiliale today proposal (s.counter (newFiliale, today) + 1) i d hd hnew]
      simp
    · intro n hdn hmem hbound hforeign
      subst hdn
      have hnew : retainedB (existingLfd s rekId) (some n) = false := by
        simp [retainedB, hmem]
      rw [assignLoop_new (existingLfd s rekId) (oldOfRek s rekId) rekId
        newFiliale today proposal (s.counter (newFiliale, today) + 1) i
        (some n) hd hnew]
      obtain ⟨it, hitmem, _, hkf, hkj, hlfd⟩ := hforeign
      have hb := (hbound it hitmem).2
      rw [hkf, hkj, hlfd] at hb
      intro hcon
      simp at hcon
      omega

/-- Witness for C5: editing submission 0 with proposals (declare 1 — its own
number; declare 3 — submission 1's number; no number): position 0 keeps 1,
position 1 is not given 3. -/
theorem C5_edit_classification_witness :
    (((commitTx demoSys (putRekla demoSys 2025 0 "F" (some 2025)
        [some 1, some 3, none])).items.filter
          (fun it => it.rekId = 0))[0]?.map (·.lfd)) = some 1
    ∧ (((commitTx demoSys (putRekla demoSys 2025 0 "F" (some 2025)
        [some 1, some 3, none])).items.filter
          (fun it => it.rekId = 0))[1]?.map (·.lfd)) ≠ some 3 := by
  constructor
  · exact (C5_edit_classification demoSys 2025 0 "F" (some 2025)
      [some 1, some 3, none] _ 0 (some 1) rfl rfl).2.1 1 rfl (by decide)
  · exact (C5_edit_classification demoSys 2025 0 "F" (some 2025)
      [some 1, some 3, none] _ 1 (some 3) rfl rfl).2.2.2 3 rfl (by decide)
      (by decide) ⟨⟨1, 3, "F", 2025⟩, by decide, by decide, rfl, rfl, rfl⟩

/-- C6: Edit deficit allocation.  On an edit with at least one New
position, the handler draws exactly one block of exactly the deficit
(the counter of the submission's (filiale, year) key advances by exactly
the number of New positions and no other counter row moves); retained
positions keep their numbers; New positions receive the block's contiguous
range in proposal order (start plus the rank among New positions); the
persisted rows of the submission afterwards are exactly the proposed
positions with those numbers, other submissions' rows untouched. -/
theorem C6_edit_deficit (s : Sys) (today : Int) (rekId : Nat)
    (newFiliale : String) (newDatumJahr : Option Int)
    (proposal : List (Option Int)) (s2 : Sys)
    (h : putRekla s today rekId newFiliale newDatumJahr proposal = .ok s2)
    (hpos : 0 < newCountOf s rekId proposal) :
    s2.counter (newFiliale, today) =
      s.counter (newFiliale, today) + newCountOf s rekId proposal
    ∧ (∀ k : CounterKey, k ≠ (newFiliale, today) → s2.counter k = s.counter k)
    ∧ s2.items.filter (fun it => it.rekId ≠ rekId) = otherItems s rekId
    ∧ (s2.items.filter (fun it => it.rekId = rekId)).length = proposal.length
    ∧ (∀ (i : Nat) (n : Int), proposal[i]? = some (some n) →
        n ∈ existingLfd s rekId →
        ((s2.items.filter (fun it => it.rekId = rekId))[i]?.map (·.lfd)) =
          some n)
    ∧ (∀ (i : Nat) (d : Option Int), proposal[i]? = some d →
        retainedB (existingLfd s rekId) d = false →
        ((s2.items.filter (fun it => it.rekId = rekId))[i]?.map (·.lfd)) =
          some (s.counter (newFiliale, today) + 1 +
            (((proposal.take i).filter
              (fun x => !(retainedB (existingLfd s rekId) x))).length : Int))) := by
  rcases putRekla_ok s today rekId newFiliale newDatumJahr proposal s2 h with
    ⟨hnil, _⟩ | ⟨_, hzero, _⟩ | ⟨hne, _, hs2⟩
  · exfalso
    rw [hnil] at hpos
    simp [newCountOf] at hpos
  · omega
  · subst hs2
    simp only
    refine ⟨bumpCounter_same _ _ _ _, ?_, ?_, ?_, ?_, ?_⟩
    · intro k hk
      exact bumpCounter_other _ _ _ _ _ hk
    · rw [List.filter_append]
      have hother : (otherItems s rekId).filter
          (fun it => it.rekId ≠ rekId) = otherItems s rekId := by
        rw [List.filter_eq_self]
        intro a ha
        simpa using (otherItems_sub s rekId a ha).2
      have hassign : ((assignLoop (existingLfd s rekId) (oldOfRek s rekId)
          rekId newFiliale today (s.counter (newFiliale, today) + 1)
          proposal).filter (fun it => it.rekId ≠ rekId)) = [] := by
        rw [List.filter_eq_nil_iff]
        intro a ha
        rcases assignLoop_mem (existingLfd s rekId) (oldOfRek s rekId) rekId
            newFiliale today (existingLfd_exists s rekId)
            (oldOfRek_rekId s rekId) proposal
            (s.counter (newFiliale, today) + 1) a ha with hret | hfresh
        · simpa using oldOfRek_rekId s rekId a hret.1
        · simpa using hfresh.1
      rw [hother, hassign, List.append_nil]
    · rw [putItems_filter, assignLoop_length]
    · intro i n hdi hmem
      rw [putItems_filter]
      rw [assignLoop_retained (existingLfd s rekId) (oldOfRek s rekId) rekId
        newFiliale today proposal (s.counter (newFiliale, today) + 1) i n
        hdi hmem]
      simp
    · intro i d hdi hnew
      rw [putItems_filter]
      rw [assignLoop_new (existingLfd s rekId) (oldOfRek s rekId) rekId
        newFiliale today proposal (s.counter (newFiliale, today) + 1) i d
        hdi hnew]
      simp

/-- Witness for C6 at the spec's example: keep 8, drop 7, add one item
without a number — the counter advances by exactly 1 (to 9), position 0
retains 8, and the added item receives 9, a number above everything ever
issued (in particular not the dropped 7). -/
theorem C6_edit_deficit_witness :
    (commitTx editSys (putRekla editSys 2025 0 "F" (some 2025)
        [some 8, none])).counter ("F", 2025) =
      editSys.counter ("F", 2025) + newCountOf editSys 0 [some 8, none]
    ∧ (((commitTx editSys (putRekla editSys 2025 0 "F" (some 2025)
        [some 8, none])).items.filter
          (fun it => it.rekId = 0))[0]?.map (·.lfd)) = some 8
    ∧ (((commitTx editSys (putRekla editSys 2025 0 "F" (some 2025)
        [some 8, none])).items.filter
          (fun it => it.rekId = 0))[1]?.map (·.lfd)) = some 9 := by
  have h := C6_edit_deficit editSys 2025 0 "F" (some 2025) [some 8, none]
    (commitTx editSys (putRekla editSys 2025 0 "F" (some 2025)
      [some 8, none])) rfl (by decide)
  exact ⟨h.1, h.2.2.2.2.1 0 8 rfl (by decide),
    h.2.2.2.2.2 1 none rfl rfl⟩

/-- C10 (implicit): no deduplication of retained numbers.  Each proposed
position is classified independently against the submission's existing
number set, so when two proposed positions both declare the same number of
that set, both are persisted carrying that same number. -/
theorem C10_duplicate_retained (s : Sys) (today : Int) (rekId : Nat)
    (newFiliale : String) (newDatumJahr : Option Int)
    (proposal : List (Option Int)) (s2 : Sys) (i1 i2 : Nat) (n : Int)
    (h : putRekla s today rekId newFiliale newDatumJahr proposal = .ok s2)
    (_hne : i1 ≠ i2)
    (h1 : proposal[i1]? = some (some n)) (h2 : proposal[i2]? = some (some n))
    (hmem : n ∈ existingLfd s rekId) :
    ((s2.items.filter (fun it => it.rekId = rekId))[i1]?.map (·.lfd)) = some n
    ∧ ((s2.items.filter (fun it => it.rekId = rekId))[i2]?.map (·.lfd)) =
        some n := by
  rcases putRekla_ok s today rekId newFiliale newDatumJahr proposal s2 h with
    ⟨hnil, _⟩ | ⟨hne2, hzero, hs2⟩ | ⟨hne2, hpos, hs2⟩
  · subst hnil
    simp at h1
  · subst hs2
    simp only
    rw [putItems_filter]
    constructor
    · rw [assignLoop_retained (existingLfd s rekId) (oldOfRek s rekId) rekId
        newFiliale today proposal 0 i1 n h1 hmem]
      simp
    · rw [assignLoop_retained (existingLfd s rekId) (oldOfRek s rekId) rekId
        newFiliale today proposal 0 i2 n h2 hmem]
      simp
  · subst hs2
    simp only
    rw [putItems_filter]
    constructor
    · rw [assignLoop_retained (existingLfd s rekId) (oldOfRek s rekId) rekId
        newFiliale today proposal (s.counter (newFiliale, today) + 1) i1 n
        h1 hmem]
      simp
    · rw [assignLoop_retained (existingLfd s rekId) (oldOfRek s rekId) rekId
        newFiliale today proposal (s.counter (newFiliale, today) + 1) i2 n
        h2 hmem]
      simp

/-- Witness for C10: editing submission 0 of `demoSys` with two positions
both declaring 1 (a member of its set {1, 2}) persists both with number 1
— the duplicate is not detected. -/
theorem C10_duplicate_retained_witness :
    (((commitTx demoSys (putRekla demoSys 2025 0 "F" (some 2025)
        [some 1, some 1])).items.filter
          (fun it => it.rekId = 0))[0]?.map (·.lfd)) = some 1
    ∧ (((commitTx demoSys (putRekla demoSys 2025 0 "F" (some 2025)
        [some 1, some 1])).items.filter
          (fun it => it.rekId = 0))[1]?.map (·.lfd)) = some 1 := by
  exact C10_duplicate_retained demoSys 2025 0 "F" (some 2025)
    [some 1, some 1] _ 0 1 1 rfl (by decide) rfl rfl (by decide)

/-- C7: Rollback atomicity.  If a position INSERT fails after the
allocation succeeded in the same transaction, the committed state is the
unchanged pre-call state — in particular every counter row reverts to its
pre-call value; and whatever the fault, the visible state is either the
pre-state or the complete success state, never a partially numbered one
(advanced counter with missing positions).  This holds for both the edit
(PUT) and the create (POST) transactions. -/
theorem C7_rollback_atomicity (s : Sys) (today : Int) (rekId : Nat)
    (newFiliale : String) (newDatumJahr : Option Int)
    (proposal : List (Option Int)) (filiale : String) (dj : Option Int)
    (npos k k2 : Nat)
    (hk : k < proposal.length) (hk2 : k2 < npos) :
    commitTx s (putReklaFail s today rekId newFiliale newDatumJahr proposal
        (some k)) = s
    ∧ (∀ q : CounterKey,
        (commitTx s (putReklaFail s today rekId newFiliale newDatumJahr
          proposal (some k))).counter q = s.counter q)
    ∧ (∀ failAt : Option Nat,
        commitTx s (putReklaFail s today rekId newFiliale newDatumJahr
          proposal failAt) = s ∨
        commitTx s (putReklaFail s today rekId newFiliale newDatumJahr
          proposal failAt) =
          commitTx s (putRekla s today rekId newFiliale newDatumJahr proposal))
    ∧ commitTx s (postReklaFail s today filiale dj npos (some k2)) = s
    ∧ (∀ failAt : Option Nat,
        commitTx s (postReklaFail s today filiale dj npos failAt) = s ∨
        commitTx s (postReklaFail s today filiale dj npos failAt) =
          commitTx s (postRekla s today filiale dj npos)) := by
  have hput : commitTx s (putReklaFail s today rekId newFiliale newDatumJahr
      proposal (some k)) = s := by
    unfold putReklaFail
    cases putRekla s today rekId newFiliale newDatumJahr proposal with
    | error e => rfl
    | ok s2 =>
      simp only [if_pos hk]
      rfl
  have hpost : commitTx s (postReklaFail s today filiale dj npos (some k2)) = s := by
    unfold postReklaFail
    cases postRekla s today filiale dj npos with
    | error e => rfl
    | ok s2 =>
      simp only [if_pos hk2]
      rfl
  refine ⟨hput, fun q => by rw [hput], ?_, hpost, ?_⟩
  · intro failAt
    unfold putReklaFail
    cases putRekla s today rekId newFiliale newDatumJahr proposal with
    | error e => left; rfl
    | ok s2 =>
      cases failAt with
      | none => right; rfl
      | some k3 =>
        by_cases hk3 : k3 < proposal.length
        · left
          simp only [if_pos hk3]
          rfl
        · right
          simp only [if_neg hk3]
  · intro failAt
    unfold postReklaFail
    cases postRekla s today filiale dj npos with
    | error e => left; rfl
    | ok s2 =>
      cases failAt with
      | none => right; rfl
      | some k3 =>
        by_cases hk3 : k3 < npos
        · left
          simp only [if_pos hk3]
          rfl
        · right
          simp only [if_neg hk3]

/-- Witness for C7: concrete edits/creates on `demoSys` with the fault
hitting the first INSERT commit nothing — the counter row of (F, 2025)
still reads 3. -/
theorem C7_rollback_atomicity_witness :
    commitTx demoSys (putReklaFail demoSys 2025 0 "F" (some 2025)
        [none] (some 0)) = demoSys
    ∧ (commitTx demoSys (putReklaFail demoSys 2025 0 "F" (some 2025)
        [none] (some 0))).counter ("F", 2025) = demoSys.counter ("F", 2025)
    ∧ commitTx demoSys (postReklaFail demoSys 2025 "F" (some 2025) 2
        (some 1)) = demoSys := by
  have h := C7_rollback_atomicity demoSys 2025 0 "F" (some 2025) [none]
    "F" (some 2025) 2 0 1 (by decide) (by decide)
  exact ⟨h.1, h.2.1 ("F", 2025), h.2.2.2.1⟩

/-- What the ghost lookup returns: the key of some old row that carries the
number. -/
theorem lookupGhost_spec (old : List ItemRow) (n : Int)
    (hex : ∃ it, it ∈ old ∧ it.lfd = n) :
    ∃ it2, it2 ∈ old ∧ it2.lfd = n ∧
      lookupGhost old n = (it2.keyF, it2.keyJ) := by
  obtain ⟨it, hmem, hlfd⟩ := hex
  have hsome : (old.find? (fun it => it.lfd = n)).isSome := by
    rw [List.find?_isSome]
    exact ⟨it, hmem, by simp [hlfd]⟩
  obtain ⟨it2, hfind⟩ := Option.isSome_iff_exists.mp hsome
  refine ⟨it2, List.mem_of_find?_eq_some hfind, ?_, ?_⟩
  · have := List.find?_some hfind
    simpa using this
  · simp [lookupGhost, hfind]

/-- `bumpCounter` to a value at least the old one never decreases any row. -/
theorem bumpCounter_mono (counter : CounterMap) (f : String) (j v : Int)
    (hv : counter (f, j) ≤ v) (k : CounterKey) :
    counter k ≤ bumpCounter counter f j v k := by
  by_cases hk : k = (f, j)
  · subst hk
    simpa using hv
  · rw [bumpCounter_other _ _ _ _ _ hk]

/-- The create flow preserves the invariant. -/
theorem postRekla_preserves (s : Sys) (today : Int) (filiale : String)
    (dj : Option Int) (npos : Nat) (hInv : SysInv s) :
    SysInv (commitTx s (postRekla s today filiale dj npos)) := by
  cases hres : postRekla s today filiale dj npos with
  | error e => simpa [commitTx] using hInv
  | ok s2 =>
    simp only [commitTx]
    rcases postRekla_ok s today filiale dj npos s2 hres with
      ⟨_, hs2⟩ | ⟨hpos, hs2⟩
    · subst hs2
      exact ⟨hInv.1, hInv.2.1, hInv.2.2⟩
    · subst hs2
      obtain ⟨hc, hb, hp⟩ := hInv
      have hbase : 0 ≤ s.counter (filiale, today) := hc _
      have hmono : ∀ k, s.counter k ≤
          bumpCounter s.counter filiale today
            (s.counter (filiale, today) + npos) k :=
        bumpCounter_mono _ _ _ _ (by omega)
      refine ⟨?_, ?_, ?_⟩
      · intro k
        exact le_trans (hc k) (hmono k)
      · intro it hit
        rcases List.mem_append.mp hit with hold | hnewm
        · obtain ⟨h1, h2⟩ := hb it hold
          exact ⟨h1, le_trans h2 (hmono _)⟩
        · obtain ⟨i, hirange, hieq⟩ := List.mem_map.mp hnewm
          have hi : (i : Int) < npos := by
            exact_mod_cast List.mem_range.mp hirange
          rw [← hieq]
          constructor
          · show (1 : Int) ≤ s.counter (filiale, today) + 1 + (i : Int)
            omega
          · show s.counter (filiale, today) + 1 + (i : Int) ≤
              bumpCounter s.counter filiale today
                (s.counter (filiale, today) + npos) (filiale, today)
            rw [bumpCounter_same]
            omega
      · rw [List.pairwise_append]
        refine ⟨hp, ?_, ?_⟩
        · rw [List.pairwise_map]
          have hr := List.pairwise_lt_range npos
          refine hr.imp ?_
          intro a b hab hcl
          have h3 : s.counter (filiale, today) + 1 + (a : Int) =
              s.counter (filiale, today) + 1 + (b : Int) := hcl.2.2
          have : a ≠ b := Nat.ne_of_lt hab
          omega
        · intro a ha b hb2
          obtain ⟨i, hirange, hieq⟩ := List.mem_map.mp hb2
          intro hcl
          rw [← hieq] at hcl
          have h1 : a.keyF = filiale := hcl.1
          have h2 : a.keyJ = today := hcl.2.1
          have h3 : a.lfd = s.counter (filiale, today) + 1 + (i : Int) :=
            hcl.2.2
          have hbnd := (hb a ha).2
          rw [h1, h2] at hbnd
          omega

/-- The edit flow preserves the invariant, provided the proposal's
declared numbers are pairwise distinct. -/
theorem putRekla_preserves (s : Sys) (today : Int) (rekId : Nat)
    (newFiliale : String) (dj : Option Int) (proposal : List (Option Int))
    (hInv : SysInv s)
    (hdist : (proposal.filterMap id).Pairwise (fun a b => a ≠ b)) :
    SysInv (commitTx s (putRekla s today rekId newFiliale dj proposal)) := by
  obtain ⟨hc, hb, hp⟩ := hInv
  cases hres : putRekla s today rekId newFiliale dj proposal with
  | error e => exact ⟨hc, hb, hp⟩
  | ok s2 =>
    simp only [commitTx]
    have hex := existingLfd_exists s rekId
    have hold := oldOfRek_rekId s rekId
    have hcur : ∀ n, n ∈ existingLfd s rekId →
        lookupGhost (oldOfRek s rekId) n = (newFiliale, today) →
        n < s.counter (newFiliale, today) + 1 := by
      intro n hn hg
      obtain ⟨it2, hmem2, hlfd2, hg2⟩ := lookupGhost_spec _ n (hex n hn)
      have hpair : (it2.keyF, it2.keyJ) = ((newFiliale, today) : CounterKey) :=
        hg2.symm.trans hg
      simp only [Prod.mk.injEq] at hpair
      have hbit := (hb it2 (oldOfRek_sub s rekId it2 hmem2)).2
      rw [hpair.1, hpair.2, hlfd2] at hbit
      omega
    have hpair_assign :
        (assignLoop (existingLfd s rekId) (oldOfRek s rekId) rekId
          newFiliale today (s.counter (newFiliale, today) + 1)
          proposal).Pairwise keyLfdNe :=
      assignLoop_pairwise _ _ _ _ _ hex hold proposal _ hdist hcur
    have hcross : ∀ a, a ∈ otherItems s rekId →
        ∀ x, x ∈ assignLoop (existingLfd s rekId) (oldOfRek s rekId) rekId
          newFiliale today (s.counter (newFiliale, today) + 1) proposal →
        keyLfdNe a x := by
      intro a ha x hx
      have has : a ∈ s.items := (otherItems_sub s rekId a ha).1
      rcases assignLoop_mem _ _ _ _ _ hex hold proposal _ x hx with
        hret | hfresh
      · have hxs : x ∈ s.items := oldOfRek_sub s rekId x hret.1
        have hane : a ≠ x := by
          intro hcon
          have h1 := (otherItems_sub s rekId a ha).2
          have h2 := oldOfRek_rekId s rekId x hret.1
          rw [hcon] at h1
          exact h1 h2
        exact hp.forall (fun _ _ h => keyLfdNe_symm h) has hxs hane
      · intro hcl
        obtain ⟨h1, h2, h3⟩ := hcl
        have hbnd := (hb a has).2
        rw [h1, hfresh.2.1, h2, hfresh.2.2.1] at hbnd
        have h4 := hfresh.2.2.2.1
        omega
    rcases putRekla_ok s today rekId newFiliale dj proposal s2 hres with
      ⟨_, hs2⟩ | ⟨_, hzero, hs2⟩ | ⟨_, hpos, hs2⟩
    · subst hs2
      refine ⟨hc, ?_, hp.filter _⟩
      intro it hit
      exact hb it ((otherItems_sub s rekId it hit).1)
    · subst hs2
      have hzf : (proposal.filter
          (fun d => !(retainedB (existingLfd s rekId) d))).length = 0 := hzero
      have hcur0 : assignLoop (existingLfd s rekId) (oldOfRek s rekId) rekId
          newFiliale today 0 proposal =
          assignLoop (existingLfd s rekId) (oldOfRek s rekId) rekId
            newFiliale today (s.counter (newFiliale, today) + 1) proposal :=
        assignLoop_cursor_irrel _ _ _ _ _ proposal hzf 0 _
      refine ⟨hc, ?_, ?_⟩
      · intro it hit
        simp only at hit
        rw [hcur0] at hit
        rcases List.mem_append.mp hit with hother | hassign
        · exact hb it ((otherItems_sub s rekId it hother).1)
        · rcases assignLoop_mem _ _ _ _ _ hex hold proposal _ it hassign with
            hret | hfresh
          · exact hb it (oldOfRek_sub s rekId it hret.1)
          · exfalso
            have h4 := hfresh.2.2.2.1
            have h5 := hfresh.2.2.2.2
            rw [hzf] at h5
            omega
      · simp only
        rw [hcur0, List.pairwise_append]
        exact ⟨hp.filter _, hpair_assign, hcross⟩
    · subst hs2
      have hnn : (0 : Int) ≤ (newCountOf s rekId proposal : Int) := by
        positivity
      have hmono : ∀ k, s.counter k ≤
          bumpCounter s.counter newFiliale today
            (s.counter (newFiliale, today) + newCountOf s rekId proposal) k :=
        bumpCounter_mono _ _ _ _ (by omega)
      refine ⟨?_, ?_, ?_⟩
      · intro k
        exact le_trans (hc k) (hmono k)
      · intro it hit
        simp only at hit
        rcases List.mem_append.mp hit with hother | hassign
        · obtain ⟨h1, h2⟩ := hb it ((otherItems_sub s rekId it hother).1)
          exact ⟨h1, le_trans h2 (hmono _)⟩
        · rcases assignLoop_mem _ _ _ _ _ hex hold proposal _ it hassign with
            hret | hfresh
          · obtain ⟨h1, h2⟩ := hb it (oldOfRek_sub s rekId it hret.1)
            exact ⟨h1, le_trans h2 (hmono _)⟩
          · have h4 := hfresh.2.2.2.1
            have h5 := hfresh.2.2.2.2
            have hlen : ((proposal.filter
                (fun d => !(retainedB (existingLfd s rekId) d))).length : Int) =
                (newCountOf s rekId proposal : Int) := rfl
            rw [hlen] at h5
            have hbase : 0 ≤ s.counter (newFiliale, today) := hc _
            constructor
            · omega
            · rw [hfresh.2.1, hfresh.2.2.1]
              show it.lfd ≤ bumpCounter s.counter newFiliale today
                (s.counter (newFiliale, today) +
                  (newCountOf s rekId proposal : Int)) (newFiliale, today)
              rw [bumpCounter_same]
              omega
      · simp only
        rw [List.pairwise_append]
        exact ⟨hp.filter _, hpair_assign, hcross⟩

/-- The delete flow preserves the invariant (the counter is untouched, so
deleted numbers are never reissued). -/
theorem deleteRekla_preserves (s : Sys) (rekId : Nat) (hInv : SysInv s) :
    SysInv (commitTx s (deleteRekla s rekId)) := by
  obtain ⟨hc, hb, hp⟩ := hInv
  cases hres : deleteRekla s rekId with
  | error e => exact ⟨hc, hb, hp⟩
  | ok s2 =>
    simp only [commitTx]
    rw [deleteRekla_ok s rekId s2 hres]
    refine ⟨hc, ?_, hp.filter _⟩
    intro it hit
    exact hb it (List.mem_filter.mp hit).1

/-- Every committed operation preserves the invariant. -/
theorem applyOp_preserves (s : Sys) (o : Op) (hInv : SysInv s)
    (hok : okOp o) : SysInv (applyOp s o) := by
  cases o with
  | post t f dj n => exact postRekla_preserves s t f dj n hInv
  | put t rid f dj ps => exact putRekla_preserves s t rid f dj ps hInv hok
  | del rid => exact deleteRekla_preserves s rid hInv

/-- No committed operation ever lowers any counter row. -/
theorem applyOp_counter_mono (s : Sys) (o : Op) (k : CounterKey) :
    s.counter k ≤ (applyOp s o).counter k := by
  cases o with
  | post t f dj n =>
    cases hres : postRekla s t f dj n with
    | error e => simp [applyOp, commitTx, hres]
    | ok s2 =>
      simp only [applyOp, commitTx, hres]
      rcases postRekla_ok s t f dj n s2 hres with ⟨_, hs2⟩ | ⟨_, hs2⟩
      · subst hs2
        exact le_refl _
      · subst hs2
        exact bumpCounter_mono _ _ _ _ (by omega) k
  | put t rid f dj ps =>
    cases hres : putRekla s t rid f dj ps with
    | error e => simp [applyOp, commitTx, hres]
    | ok s2 =>
      simp only [applyOp, commitTx, hres]
      rcases putRekla_ok s t rid f dj ps s2 hres with
        ⟨_, hs2⟩ | ⟨_, _, hs2⟩ | ⟨_, _, hs2⟩
      · subst hs2
        exact le_refl _
      · subst hs2
        exact le_refl _
      · subst hs2
        exact bumpCounter_mono _ _ _ _ (by omega) k
  | del rid =>
    cases hres : deleteRekla s rid with
    | error e => simp [applyOp, commitTx, hres]
    | ok s2 =>
      simp only [applyOp, commitTx, hres]
      rw [deleteRekla_ok s rid s2 hres]

/-- Every item a committed operation adds carries a number strictly above
the counter of its key as it stood before the operation — a number that
was never issued before, in particular not one freed by an earlier delete
or edit. -/
theorem applyOp_new_items (s : Sys) (o : Op) (hok : okOp o) :
    ∀ it, it ∈ (applyOp s o).items →
      it ∈ s.items ∨ s.counter (it.keyF, it.keyJ) < it.lfd := by
  cases o with
  | post t f dj n =>
    cases hres : postRekla s t f dj n with
    | error e =>
      intro it hit
      left
      simpa [applyOp, commitTx, hres] using hit
    | ok s2 =>
      simp only [applyOp, commitTx, hres]
      intro it hit
      rcases postRekla_ok s t f dj n s2 hres with ⟨_, hs2⟩ | ⟨_, hs2⟩
      · subst hs2
        exact Or.inl hit
      · subst hs2
        simp only at hit
        rcases List.mem_append.mp hit with hold | hnewm
        · exact Or.inl hold
        · right
          obtain ⟨i, hir, hieq⟩ := List.mem_map.mp hnewm
          rw [← hieq]
          show s.counter (f, t) < s.counter (f, t) + 1 + (i : Int)
          omega
  | put t rid f dj ps =>
    cases hres : putRekla s t rid f dj ps with
    | error e =>
      intro it hit
      left
      simpa [applyOp, commitTx, hres] using hit
    | ok s2 =>
      simp only [applyOp, commitTx, hres]
      intro it hit
      have hex := existingLfd_exists s rid
      have hold := oldOfRek_rekId s rid
      rcases putRekla_ok s t rid f dj ps s2 hres with
        ⟨_, hs2⟩ | ⟨_, hzero, hs2⟩ | ⟨_, hpos, hs2⟩
      · subst hs2
        exact Or.inl ((otherItems_sub s rid it hit).1)
      · subst hs2
        simp only at hit
        rcases List.mem_append.mp hit with hother | hassign
        · exact Or.inl ((otherItems_sub s rid it hother).1)
        · rcases assignLoop_mem _ _ _ _ _ hex hold ps 0 it hassign with
            hret | hfresh
          · exact Or.inl (oldOfRek_sub s rid it hret.1)
          · exfalso
            have h4 := hfresh.2.2.2.1
            have h5 := hfresh.2.2.2.2
            have hzf : (ps.filter
                (fun d => !(retainedB (existingLfd s rid) d))).length = 0 :=
              hzero
            rw [hzf] at h5
            omega
      · subst hs2
        simp only at hit
        rcases List.mem_append.mp hit with hother | hassign
        · exact Or.inl ((otherItems_sub s rid it hother).1)
        · rcases assignLoop_mem _ _ _ _ _ hex hold ps
            (s.counter (f, t) + 1) it hassign with hret | hfresh
          · exact Or.inl (oldOfRek_sub s rid it hret.1)
          · right
            rw [hfresh.2.1, hfresh.2.2.1]
            have h4 := hfresh.2.2.2.1
            omega
  | del rid =>
    cases hres : deleteRekla s rid with
    | error e =>
      intro it hit
      left
      simpa [applyOp, commitTx, hres] using hit
    | ok s2 =>
      simp only [applyOp, commitTx, hres]
      rw [deleteRekla_ok s rid s2 hres]
      intro it hit
      exact Or.inl (List.mem_filter.mp hit).1

/-- Invariant preservation over a whole operation sequence. -/
theorem runOps_preserves (ops : List Op) :
    ∀ s : Sys, SysInv s → (∀ o, o ∈ ops → okOp o) →
      SysInv (runOps s ops) := by
  induction ops with
  | nil =>
    intro s h _
    exact h
  | cons o ops ih =>
    intro s h hok
    rw [runOps, List.foldl_cons]
    exact ih (applyOp s o)
      (applyOp_preserves s o h (hok o (List.mem_cons_self _ _)))
      (fun o2 ho2 => hok o2 (List.mem_cons_of_mem _ ho2))

/-- The empty database satisfies the invariant. -/
theorem emptySys_inv : SysInv emptySys := by
  refine ⟨fun k => le_refl 0, ?_, ?_⟩
  · intro it hit
    simp [emptySys] at hit
  · simp [emptySys]

/-- C1 counterexample: create a submission with two positions (numbers 1
and 2 of (F, 2025)), then edit it with two positions both declaring
number 1.  Each is classified independently against the existing set
{1, 2}, so both are persisted carrying number 1 under the same
(filiale, jahr): the uniqueness stated in the claim fails on this
operation sequence. -/
theorem C1_counterexample :
    (runOps emptySys [.post 2025 "F" (some 2025) 2,
        .put 2025 0 "F" (some 2025) [some 1, some 1]]).items =
      [⟨0, 1, "F", 2025⟩, ⟨0, 1, "F", 2025⟩]
    ∧ ¬ (runOps emptySys [.post 2025 "F" (some 2025) 2,
        .put 2025 0 "F" (some 2025) [some 1, some 1]]).items.Pairwise
          keyLfdNe := by
  constructor
  · decide
  · intro hpw
    rw [show (runOps emptySys [.post 2025 "F" (some 2025) 2,
        .put 2025 0 "F" (some 2025) [some 1, some 1]]).items =
      [⟨0, 1, "F", 2025⟩, ⟨0, 1, "F", 2025⟩] from by decide] at hpw
    rw [List.pairwise_cons] at hpw
    exact hpw.1 _ (List.mem_singleton_self _) ⟨rfl, rfl, rfl⟩

/-- C1 (amended): for every sequence of create/edit/delete operations in
which no edit proposal declares the same number in two positions, the
reachable state satisfies the uniqueness invariant — no two persisted
positions carry the same number under the same (filiale, jahr), every
persisted number is positive and bounded by its key's counter; moreover
counters never decrease under any operation, and any position an
operation adds carries a number strictly above the counter as it stood
before, so a number once issued — including one whose bearer was deleted
or dropped in an edit — is never issued again. -/
theorem C1_uniqueness (ops : List Op) (hops : ∀ o, o ∈ ops → okOp o) :
    SysInv (runOps emptySys ops)
    ∧ (runOps emptySys ops).items.Pairwise keyLfdNe
    ∧ (∀ (s : Sys) (o : Op) (k : CounterKey),
        s.counter k ≤ (applyOp s o).counter k)
    ∧ (∀ (s : Sys) (o : Op), okOp o →
        ∀ it, it ∈ (applyOp s o).items →
          it ∈ s.items ∨ s.counter (it.keyF, it.keyJ) < it.lfd) := by
  have h := runOps_preserves ops emptySys emptySys_inv hops
  exact ⟨h, h.2.2, applyOp_counter_mono,
    fun s o hok => applyOp_new_items s o hok⟩

/-- Witness for C1's amended theorem on a concrete well-formed sequence;
the instantiated monotonicity and freshness facts are evaluated on
`emptySys`. -/
theorem C1_uniqueness_witness :
    SysInv (runOps emptySys demoOps)
    ∧ (runOps emptySys demoOps).items.Pairwise keyLfdNe
    ∧ emptySys.counter ("F", 2025) ≤
        (applyOp emptySys (.post 2025 "F" (some 2025) 2)).counter ("F", 2025) := by
  have hops : ∀ o, o ∈ demoOps → okOp o := by
    intro o ho
    fin_cases ho
    · trivial
    · simp only [okOp]
      decide
    · trivial
    · trivial
  have h := C1_uniqueness demoOps hops
  exact ⟨h.1, h.2.1, h.2.2.1 emptySys (.post 2025 "F" (some 2025) 2)
    ("F", 2025)⟩

/-- Witness for C9's amended theorem: a creation back-dated to 2023 while
the wall clock reads 2025 leaves the (F, 2023) counter row untouched. -/
theorem C9_wall_clock_period_witness :
    (commitTx emptySys (postRekla emptySys 2025 "F" (some 2023) 1)).counter
        ("F", 2023) = emptySys.counter ("F", 2023)
    ∧ getYearFromDateValue "2023-05-10" = some 2023 := by
  have h := C9_wall_clock_period emptySys 2025 "F" (some 2023) (some 2024) 1
    (commitTx emptySys (postRekla emptySys 2025 "F" (some 2023) 1)) rfl
  exact ⟨h.2.1 ("F", 2023) (by decide), h.2.2.2⟩
